import Mathlib

set_option maxHeartbeats 1000000
set_option maxRecDepth 8000

/-! Shallow embedding of the stream control panel in src/app.py: the pure
validators, bitrate parsing, the rate-control buffer computation of
`build_cmd`, playlist construction with FFmpeg concat-manifest escaping, the
start branch of the `/toggle` handler, the lock-protected `StreamState`
record, and the supervised restart loop of `start_supervised`.
Strings are modelled as `List Char`; the wall clock as a `Nat` parameter;
the random shuffle as an explicitly passed permutation; the file system as
boolean predicates. -/

/-- Character list of a string literal. -/
def cs (s : String) : List Char := s.data

/-- Single-quote character. -/
def squote : Char := Char.ofNat 39

/-- Backslash character. -/
def bslash : Char := Char.ofNat 92

/-- Newline character. -/
def nlChar : Char := Char.ofNat 10

/-- Forward-slash character. -/
def slashChar : Char := Char.ofNat 47

/-- Letter k character. -/
def kChar : Char := Char.ofNat 107

/-- Dot character. -/
def dotChar : Char := Char.ofNat 46

/-- Whitespace recognised by Python str.strip (ASCII fragment). -/
def isPySpace (c : Char) : Bool :=
  c == ' ' || c == Char.ofNat 9 || c == nlChar || c == Char.ofNat 11 ||
    c == Char.ofNat 12 || c == Char.ofNat 13

/-- Python str.strip: drop leading and trailing whitespace. -/
def pyStrip (l : List Char) : List Char :=
  ((l.dropWhile isPySpace).reverse.dropWhile isPySpace).reverse

/-- Python substring containment test (pat in s), scanning left to right. -/
def containsSeq (pat : List Char) : List Char → Bool
  | [] => pat.isEmpty
  | c :: rest => pat.isPrefixOf (c :: rest) || containsSeq pat rest

/-- Decimal digit character for a digit value. -/
def digitChar (d : Nat) : Char := Char.ofNat (48 + d)

/-- Numeric value of a decimal digit character. -/
def charVal (c : Char) : Nat := c.toNat - 48

/-- Decimal parse of a digit string (Python int on an all-digit string). -/
def toNatChars (l : List Char) : Nat := l.foldl (fun a c => 10 * a + charVal c) 0

/-- Fuel-driven big-endian decimal rendering helper. -/
def natToCharsAux : Nat → Nat → List Char → List Char
  | 0, _, acc => acc
  | fuel + 1, n, acc =>
    if n = 0 then acc else natToCharsAux fuel (n / 10) (digitChar (n % 10) :: acc)

/-- Decimal rendering of a natural number (Python str on an int). -/
def natToChars (n : Nat) : List Char :=
  if n = 0 then [digitChar 0] else natToCharsAux (n + 1) n []

/-- All-digits test (Python str.isdigit on ASCII strings). -/
def isDigitsB (l : List Char) : Bool := l.all Char.isDigit

/-- Matcher for the regular expression st digits then an optional k then
end of string: the pattern used by validate_bitrate in src/app.py. -/
def matchesBitrateRe (l : List Char) : Bool :=
  let ds := l.takeWhile Char.isDigit
  let rest := l.dropWhile Char.isDigit
  decide (ds ≠ [] ∧ (rest = [] ∨ rest = [kChar]))

/-- Embeds validate_bitrate: reject the empty string, otherwise match the
stripped input against the bitrate pattern. -/
def validate_bitrate (bitrate : List Char) : Bool :=
  if bitrate = [] then false else matchesBitrateRe (pyStrip bitrate)

/-- Specification-side reading of the claim: the string itself consists of
one or more digits followed by an optional trailing k. -/
def IsBitrateStr (l : List Char) : Prop :=
  ∃ ds : List Char, ds ≠ [] ∧ (∀ c ∈ ds, c.isDigit = true) ∧
    (l = ds ∨ l = ds ++ [kChar])

/-- Allow-listed video extensions from src/app.py (already lowercase). -/
def allowedExts : List (List Char) :=
  [cs ".mp4", cs ".mkv", cs ".avi", cs ".mov", cs ".flv", cs ".webm"]

/-- Python str.lower, character-wise (ASCII fragment). -/
def pyLower (l : List Char) : List Char := l.map Char.toLower

/-- Lowercased-extension allow-list check (filename.lower().endswith(exts)). -/
def hasAllowedExt (f : List Char) : Bool :=
  allowedExts.any (fun e => e.isSuffixOf (pyLower f))

/-- Embeds validate_video_filename: reject empty names, names containing a
parent-directory marker, absolute paths, and names containing a backslash,
then require an allow-listed extension. -/
def validate_video_filename (filename : List Char) : Bool :=
  if filename = [] ∨ containsSeq [dotChar, dotChar] filename = true ∨
      filename.head? = some slashChar ∨ bslash ∈ filename then false
  else hasAllowedExt filename

/-- Characters allowed inside a URL scheme by urllib.parse. -/
def isSchemeChar (c : Char) : Bool :=
  c.isAlpha || c.isDigit || c == '+' || c == '-' || c == dotChar

/-- Head-is-ASCII-letter test. -/
def headIsAlpha : List Char → Bool
  | [] => false
  | c :: _ => c.isAlpha

/-- Scheme extraction of urllib.parse.urlparse: the lowercased prefix before
the first colon when it is a syntactically valid scheme, else empty. -/
def urlScheme (u : List Char) : List Char :=
  let pre := u.takeWhile (fun c => !(c == ':'))
  if pre.length < u.length ∧ pre ≠ [] ∧ headIsAlpha pre = true ∧
      pre.all isSchemeChar = true then pyLower pre
  else []

/-- Embeds validate_srt_url: non-empty input whose parsed scheme is one of
srt, rtmp, rtmps, udp. -/
def validate_srt_url (url : List Char) : Bool :=
  if url = [] then false
  else decide (urlScheme (pyStrip url) ∈ [cs "srt", cs "rtmp", cs "rtmps", cs "udp"])

/-- Encoder allow-list from src/app.py. -/
def validEncoders : List (List Char) :=
  [cs "libx264", cs "h264_nvenc", cs "h264_vaapi"]

/-- Embeds validate_encoder. -/
def validate_encoder (encoder : List Char) : Bool :=
  decide (encoder ∈ validEncoders)

/-- Embeds parse_bitrate_k: strip, then parse digits-with-trailing-k or a
bare digit string, else fail. -/
def parse_bitrate_k (bitrate : List Char) : Option Nat :=
  let b := pyStrip bitrate
  if b.getLast? = some kChar ∧ isDigitsB b.dropLast = true ∧ b.dropLast ≠ [] then
    some (toNatChars b.dropLast)
  else if isDigitsB b = true ∧ b ≠ [] then some (toNatChars b)
  else none

/-- Embeds the -bufsize computation of build_cmd: twice the parsed bitrate
with a k suffix when the parsed value is non-zero, else twice the bare
integer when the raw string is all digits, else the raw string. -/
def buildBuf (bitrate : List Char) : List Char :=
  match parse_bitrate_k bitrate with
  | some bk =>
    if bk ≠ 0 then natToChars (bk * 2) ++ [kChar]
    else if isDigitsB bitrate = true ∧ bitrate ≠ [] then natToChars (toNatChars bitrate * 2)
    else bitrate
  | none =>
    if isDigitsB bitrate = true ∧ bitrate ≠ [] then natToChars (toNatChars bitrate * 2)
    else bitrate

/-- Python str.split on the slash separator (accumulator holds the current
component reversed). -/
def splitSlash : List Char → List Char → List (List Char)
  | [], cur => [cur.reverse]
  | c :: rest, cur =>
    if c = slashChar then cur.reverse :: splitSlash rest []
    else splitSlash rest (c :: cur)

/-- Component normalisation loop of posixpath.normpath: drop empty and dot
components, resolve parent markers against the accumulated stack. -/
def normComps (initialSlashes : Nat) : List (List Char) → List (List Char) → List (List Char)
  | acc, [] => acc
  | acc, comp :: rest =>
    if comp = [] ∨ comp = [dotChar] then normComps initialSlashes acc rest
    else if comp ≠ [dotChar, dotChar] ∨ (initialSlashes = 0 ∧ acc = []) ∨
        acc.getLast? = some [dotChar, dotChar] then
      normComps initialSlashes (acc ++ [comp]) rest
    else if acc ≠ [] then normComps initialSlashes acc.dropLast rest
    else normComps initialSlashes acc rest

/-- Embeds posixpath.normpath (the os.path.normpath of the deployment
platform). -/
def pyNormPath (p : List Char) : List Char :=
  if p = [] then [dotChar]
  else
    let initialSlashes : Nat :=
      if p.take 1 = [slashChar] then
        if p.take 2 = [slashChar, slashChar] ∧
            ¬ p.take 3 = [slashChar, slashChar, slashChar] then 2 else 1
      else 0
    let comps := splitSlash p []
    let newComps := normComps initialSlashes [] comps
    let joined := List.intercalate [slashChar] newComps
    let res := List.replicate initialSlashes slashChar ++ joined
    if res = [] then [dotChar] else res

/-- Backslash-to-slash replacement applied by escape_ffmpeg_path. -/
def normalizeSlashes (l : List Char) : List Char :=
  l.map (fun c => if c = bslash then slashChar else c)

/-- Single-quote escaping for the FFmpeg concat demuxer: each quote becomes
quote backslash quote quote (Python replace with a one-character pattern). -/
def escQuotes : List Char → List Char
  | [] => []
  | c :: rest =>
    (if c = squote then [squote, bslash, squote, squote] else [c]) ++ escQuotes rest

/-- Normalised form of a path as produced inside escape_ffmpeg_path. -/
def normalizedPath (p : List Char) : List Char := normalizeSlashes (pyNormPath p)

/-- Embeds escape_ffmpeg_path: normalise, switch separators, escape quotes. -/
def escape_ffmpeg_path (p : List Char) : List Char := escQuotes (normalizedPath p)

/-- Leading characters of every manifest line. -/
def filePrefixChars : List Char := cs "file " ++ [squote]

/-- Manifest line written by create_playlist_file for one path. -/
def writeManifestLine (p : List Char) : List Char :=
  filePrefixChars ++ escape_ffmpeg_path p ++ [squote, nlChar]

/-- Quote un-escaping of the debug_playlist reader: Python replace of the
four-character escape sequence by a quote, scanning left to right. -/
def pyUnescapeQuote : List Char → List Char
  | a :: b :: c :: d :: rest =>
    if a = squote ∧ b = bslash ∧ c = squote ∧ d = squote then
      squote :: pyUnescapeQuote rest
    else a :: pyUnescapeQuote (b :: c :: d :: rest)
  | other => other

/-- Manifest-line parser of the debug_playlist endpoint: check the file
prefix, cut the fixed framing, un-escape quotes. -/
def parseManifestLine (line : List Char) : Option (List Char) :=
  if filePrefixChars.isPrefixOf line = true then
    some (pyUnescapeQuote (((line.drop 6).dropLast).dropLast))
  else none

/-- Embeds os.path.join for two components. -/
def joinPath (a b : List Char) : List Char :=
  if b.head? = some slashChar then b
  else if a = [] ∨ a.getLast? = some slashChar then a ++ b
  else a ++ slashChar :: b

/-- Configured video root (VIDEO_FOLDER default). -/
def VIDEO_FOLDER : List Char := cs "/app/videos"

/-- File-system oracle: existence and readability checks used at manifest
write time. -/
structure FS where
  pathExists : List Char → Bool
  readable : List Char → Bool

/-- Failure modes of create_playlist_file. -/
inductive PlaylistErr where
  | noVideos
  | emptyPlaylist
  deriving DecidableEq

/-- Result marker of create_playlist_file. -/
inductive PlaylistRes where
  | ok
  | err (e : PlaylistErr)
  deriving DecidableEq

/-- Observable outcome of one create_playlist_file call: the result, the
manifest lines written, whether the new file was registered as the current
playlist, and whether the file was kept on disk. -/
structure PlaylistOutcome where
  result : PlaylistRes
  lines : List (List Char)
  currentSet : Bool
  fileKept : Bool
  deriving DecidableEq

/-- Video order chosen by create_playlist_file: the externally supplied
shuffle permutation when shuffle mode is on, else the scan order. -/
def playlistVideos (shuffle : Bool) (videos shuffled : List (List Char)) : List (List Char) :=
  if shuffle then shuffled else videos

/-- Videos surviving the existence and readability checks at write time. -/
def validVideos (fs : FS) (pv : List (List Char)) : List (List Char) :=
  pv.filter (fun v =>
    fs.pathExists (joinPath VIDEO_FOLDER v) && fs.readable (joinPath VIDEO_FOLDER v))

/-- Embeds create_playlist_file: fail on an empty scan, write one escaped
line per surviving video, fail (removing the file, without registering it)
when nothing survived, else register the manifest. -/
def create_playlist (fs : FS) (shuffle : Bool) (videos shuffled : List (List Char)) :
    PlaylistOutcome :=
  if videos = [] then ⟨PlaylistRes.err PlaylistErr.noVideos, [], false, false⟩
  else if validVideos fs (playlistVideos shuffle videos shuffled) = [] then
    ⟨PlaylistRes.err PlaylistErr.emptyPlaylist,
     (validVideos fs (playlistVideos shuffle videos shuffled)).map
       (fun v => writeManifestLine (joinPath VIDEO_FOLDER v)), false, false⟩
  else
    ⟨PlaylistRes.ok,
     (validVideos fs (playlistVideos shuffle videos shuffled)).map
       (fun v => writeManifestLine (joinPath VIDEO_FOLDER v)), true, true⟩

/-- Form fields of the start request (DEFAULTS keys of src/app.py). -/
structure Form where
  stream_key : List Char
  bitrate : List Char
  input_type : List Char
  video : List Char
  srt_url : List Char
  encoder : List Char
  preset : List Char
  shuffle_mode : List Char
  deriving DecidableEq

/-- Raw request form: each field optionally supplied by the client. -/
structure Req where
  stream_key : Option (List Char)
  bitrate : Option (List Char)
  input_type : Option (List Char)
  video : Option (List Char)
  srt_url : Option (List Char)
  encoder : Option (List Char)
  preset : Option (List Char)
  shuffle_mode : Option (List Char)
  deriving DecidableEq

/-- Initial DEFAULTS dictionary of src/app.py. -/
def DEFAULTS : Form :=
  { stream_key := []
  , bitrate := cs "2500k"
  , input_type := cs "file"
  , video := []
  , srt_url := []
  , encoder := cs "libx264"
  , preset := cs "medium"
  , shuffle_mode := cs "true" }

/-- Form assembly of the toggle handler: request value with DEFAULTS
fallback, stripped. -/
def mergeForm (defaults : Form) (req : Req) : Form :=
  { stream_key := pyStrip (req.stream_key.getD defaults.stream_key)
  , bitrate := pyStrip (req.bitrate.getD defaults.bitrate)
  , input_type := pyStrip (req.input_type.getD defaults.input_type)
  , video := pyStrip (req.video.getD defaults.video)
  , srt_url := pyStrip (req.srt_url.getD defaults.srt_url)
  , encoder := pyStrip (req.encoder.getD defaults.encoder)
  , preset := pyStrip (req.preset.getD defaults.preset)
  , shuffle_mode := pyStrip (req.shuffle_mode.getD defaults.shuffle_mode) }

/-- Stored streaming destination (url, key, enabled flag). -/
structure Dest where
  enabled : Bool
  url : List Char
  key : List Char
  deriving DecidableEq

/-- Destinations eligible for output: enabled with non-empty url and key,
rendered as url concatenated with key. -/
def enabledDestinations (ds : List Dest) : List (List Char) :=
  (ds.filter (fun d => d.enabled && !d.key.isEmpty && !d.url.isEmpty)).map
    (fun d => d.url ++ d.key)

/-- Validation failures of the toggle start branch. -/
inductive ToggleErr where
  | noDestination
  | badBitrate
  | badEncoder
  | noVideos
  | badVideoName
  | videoNotFound
  | badSrtUrl
  | badInputType
  deriving DecidableEq

/-- Response marker of the toggle start branch. -/
inductive ToggleResp where
  | ok
  | err (e : ToggleErr)
  deriving DecidableEq

/-- Observable outcome of one start request: the response, the DEFAULTS
dictionary afterwards, the configuration persisted during the request, and
whether a supervisor thread was spawned. -/
structure ToggleResult where
  response : ToggleResp
  defaults : Form
  saved : Option Form
  spawned : Bool
  deriving DecidableEq

/-- Environment read by the toggle start branch: stored destinations, the
video listing, and a file-existence oracle. -/
structure ToggleEnv where
  destinations : List Dest
  videos : List (List Char)
  fileExists : List Char → Bool

/-- Embeds the start branch of the /toggle handler (stream not running):
merge the form into DEFAULTS, persist it, then run the validation chain.
The command build and process spawn that follow a fully validated request
are outside this model and are summarised by the ok response with the
spawned flag set. -/
def toggleStart (defaults : Form) (env : ToggleEnv) (req : Req) : ToggleResult :=
  let form := mergeForm defaults req
  let enabled := enabledDestinations env.destinations
  if enabled = [] then
    ⟨ToggleResp.err ToggleErr.noDestination, form, some form, false⟩
  else if validate_bitrate form.bitrate = false then
    ⟨ToggleResp.err ToggleErr.badBitrate, form, some form, false⟩
  else if validate_encoder form.encoder = false then
    ⟨ToggleResp.err ToggleErr.badEncoder, form, some form, false⟩
  else if form.input_type = cs "file" then
    if env.videos = [] then
      ⟨ToggleResp.err ToggleErr.noVideos, form, some form, false⟩
    else if form.video ≠ [] ∧ validate_video_filename form.video = false then
      ⟨ToggleResp.err ToggleErr.badVideoName, form, some form, false⟩
    else if form.video ≠ [] ∧ env.fileExists (joinPath VIDEO_FOLDER form.video) = false then
      ⟨ToggleResp.err ToggleErr.videoNotFound, form, some form, false⟩
    else ⟨ToggleResp.ok, form, some form, true⟩
  else if form.input_type = cs "srt" then
    if form.srt_url = [] ∨ validate_srt_url form.srt_url = false then
      ⟨ToggleResp.err ToggleErr.badSrtUrl, form, some form, false⟩
    else ⟨ToggleResp.ok, form, some form, true⟩
  else ⟨ToggleResp.err ToggleErr.badInputType, form, some form, false⟩

/-- Scalar fields of the lock-protected StreamState record (the playlist
bookkeeping lists of the Python class are independent of these fields and
are modelled with the playlist builder instead). -/
structure SStreamState where
  running : Bool
  restarts : Nat
  start_time : Option Nat
  uptime : Nat
  last_error : Option (List Char)
  process_id : Option Nat
  last_restart_time : Nat
  deriving DecidableEq

/-- Freshly constructed StreamState. -/
def initStreamState : SStreamState :=
  { running := false, restarts := 0, start_time := none, uptime := 0,
    last_error := none, process_id := none, last_restart_time := 0 }

/-- Embeds StreamState.set_running at a given clock reading. -/
def set_running (s : SStreamState) (b : Bool) (now : Nat) : SStreamState :=
  if b then { s with running := true, start_time := some now }
  else
    { s with running := false,
             uptime := s.uptime + (match s.start_time with | some t => now - t | none => 0),
             start_time := none }

/-- Embeds StreamState.increment_restarts. -/
def increment_restarts (s : SStreamState) (now : Nat) : SStreamState :=
  { s with restarts := s.restarts + 1, last_restart_time := now }

/-- Embeds StreamState.set_error. -/
def set_error (s : SStreamState) (e : List Char) : SStreamState :=
  { s with last_error := some e }

/-- Embeds the field updates of StreamState.reset (file cleanup happens
outside the lock and does not touch these fields). -/
def state_reset (s : SStreamState) : SStreamState :=
  { s with running := false, start_time := none, last_error := none, process_id := none }

/-- State-transition operations of the claim, each tagged with the clock
reading at which it runs. -/
inductive SOp where
  | setRunning (b : Bool) (now : Nat)
  | incRestarts (now : Nat)
  | setError (e : List Char)
  | reset
  deriving DecidableEq

/-- Apply one transition operation. -/
def applyOp (s : SStreamState) : SOp → SStreamState
  | SOp.setRunning b now => set_running s b now
  | SOp.incRestarts now => increment_restarts s now
  | SOp.setError e => set_error s e
  | SOp.reset => state_reset s

/-- Apply a mutex-ordered sequence of transition operations. -/
def applyOps (s : SStreamState) (ops : List SOp) : SStreamState := ops.foldl applyOp s

/-- Snapshot returned by StreamState.get_status. -/
structure StatusSnap where
  running : Bool
  restarts : Nat
  uptime : Nat
  last_error : Option (List Char)
  process_id : Option Nat
  last_restart_time : Nat
  deriving DecidableEq

/-- Embeds StreamState.get_status at a given clock reading: current uptime
adds the elapsed time since start when running. -/
def get_status (s : SStreamState) (now : Nat) : StatusSnap :=
  { running := s.running
  , restarts := s.restarts
  , uptime := s.uptime +
      (match s.running, s.start_time with
        | true, some t => now - t
        | _, _ => 0)
  , last_error := s.last_error
  , process_id := s.process_id
  , last_restart_time := s.last_restart_time }

/-- Invariant of the claim: a running state carries a start timestamp. -/
def stateInv (s : SStreamState) : Prop := s.running = true → s.start_time ≠ none

/-- One observed process run inside the supervisor loop: the exit code
returned by wait, and whether stop_requested was observed set at the check
after the exit. -/
structure SupEvent where
  rc : Int
  stopObserved : Bool
  deriving DecidableEq

/-- Observable outcome of one supervisor run over a script of process
exits: number of launches, the restart counter, the sleep delays taken
before each relaunch, the backoff value afterwards, the error recorded,
the running flag, and whether the script ran out before the loop ended. -/
structure SupResult where
  launches : Nat
  restarts : Nat
  delays : List ℚ
  backoff : ℚ
  lastError : Option (List Char)
  running : Bool
  exhausted : Bool
  deriving DecidableEq

/-- Error message recorded when the restart budget is exhausted. -/
def maxErrMsg (mr : Nat) : List Char :=
  cs "Max restarts (" ++ natToChars mr ++ cs ") reached"

/-- Embeds the while loop of start_supervised: launch, observe an exit,
stop on the cancellation flag, count the restart, give up at the budget,
else sleep the current backoff and grow it by three halves capped at 60. -/
def supLoop (mr : Nat) :
    List SupEvent → Nat → ℚ → List ℚ → Nat → Option (List Char) → SupResult
  | [], restarts, backoff, delays, launches, err =>
    if restarts < mr then ⟨launches, restarts, delays, backoff, err, false, true⟩
    else ⟨launches, restarts, delays, backoff, err, false, false⟩
  | e :: rest, restarts, backoff, delays, launches, err =>
    if restarts < mr then
      if e.stopObserved then ⟨launches + 1, restarts, delays, backoff, err, false, false⟩
      else if mr ≤ restarts + 1 then
        ⟨launches + 1, restarts + 1, delays, backoff, some (maxErrMsg mr), false, false⟩
      else
        supLoop mr rest (restarts + 1) (min (backoff * 3 / 2) 60)
          (delays ++ [backoff]) (launches + 1) err
    else ⟨launches, restarts, delays, backoff, err, false, false⟩

/-- Embeds start_supervised from its initial state (backoff two seconds,
zero restarts). -/
def supRun (mr : Nat) (events : List SupEvent) : SupResult :=
  supLoop mr events 0 2 [] 0 none

/-- Closed form of the backoff value after k restarts: two times three
halves to the k, capped at 60. -/
def backoffSeq (k : Nat) : ℚ := min (2 * (3 / 2 : ℚ) ^ k) 60

/-- All-permissive file system. -/
def allTrueFS : FS := ⟨fun _ => true, fun _ => true⟩

/-- File system on which no path exists. -/
def noneFS : FS := ⟨fun _ => false, fun _ => true⟩

/-- Three-element scan result for concrete playlist runs. -/
def videos3 : List (List Char) := [cs "a.mp4", cs "b.mp4", cs "c.mp4"]

/-- One permutation of videos3. -/
def shuffled3 : List (List Char) := [cs "b.mp4", cs "c.mp4", cs "a.mp4"]

/-- Concrete request carrying an invalid bitrate. -/
def reqBadBitrate : Req :=
  { stream_key := none, bitrate := some (cs "abc"), input_type := none, video := none,
    srt_url := none, encoder := none, preset := none, shuffle_mode := none }

/-- Environment with no stored destinations and no videos. -/
def envEmpty : ToggleEnv := ⟨[], [], fun _ => false⟩

/-- Script of two clean process exits with no stop request. -/
def cleanEvents2 : List SupEvent := [⟨0, false⟩, ⟨0, false⟩]

/-! Helper lemmas. -/

theorem takeWhile_append_all {p : Char → Bool} :
    ∀ {ds r : List Char}, (∀ c ∈ ds, p c = true) →
      (ds ++ r).takeWhile p = ds ++ r.takeWhile p := by
  intro ds r h
  induction ds with
  | nil => simp
  | cons c cst ih =>
    have hc : p c = true := h c (by simp)
    simp only [List.cons_append, List.takeWhile_cons, hc, if_true]
    rw [ih (fun x hx => h x (by simp [hx]))]

theorem dropWhile_append_all {p : Char → Bool} :
    ∀ {ds r : List Char}, (∀ c ∈ ds, p c = true) →
      (ds ++ r).dropWhile p = r.dropWhile p := by
  intro ds r h
  induction ds with
  | nil => simp
  | cons c cst ih =>
    have hc : p c = true := h c (by simp)
    simp only [List.cons_append, List.dropWhile_cons, hc, if_true]
    exact ih (fun x hx => h x (by simp [hx]))

theorem matchesBitrateRe_iff (l : List Char) :
    matchesBitrateRe l = true ↔ IsBitrateStr l := by
  unfold matchesBitrateRe IsBitrateStr
  rw [decide_eq_true_eq]
  constructor
  · rintro ⟨hne, hrest⟩
    refine ⟨l.takeWhile Char.isDigit, hne, fun c hc => List.mem_takeWhile_imp hc, ?_⟩
    rcases hrest with h | h
    · left
      conv_lhs => rw [← List.takeWhile_append_dropWhile (p := Char.isDigit) (l := l)]
      rw [h, List.append_nil]
    · right
      conv_lhs => rw [← List.takeWhile_append_dropWhile (p := Char.isDigit) (l := l)]
      rw [h]
  · rintro ⟨ds, hne, hdig, h | h⟩
    · rw [h]
      refine ⟨?_, Or.inl ?_⟩
      · have ht := takeWhile_append_all (p := Char.isDigit) (r := ([] : List Char)) hdig
        simp only [List.append_nil, List.takeWhile_nil] at ht
        rw [ht]
        exact hne
      · have hd := dropWhile_append_all (p := Char.isDigit) (r := ([] : List Char)) hdig
        simp only [List.append_nil, List.dropWhile_nil] at hd
        exact hd
    · rw [h]
      have hk : Char.isDigit kChar = false := by decide
      have ht : (ds ++ [kChar]).takeWhile Char.isDigit = ds := by
        rw [takeWhile_append_all hdig]
        simp [List.takeWhile_cons, hk]
      have hd : (ds ++ [kChar]).dropWhile Char.isDigit = [kChar] := by
        rw [dropWhile_append_all hdig]
        simp [List.dropWhile_cons, hk]
      rw [ht, hd]
      exact ⟨hne, Or.inr rfl⟩

theorem isPrefixOf_iff_append : ∀ (p l : List Char), p.isPrefixOf l = true ↔ ∃ t, l = p ++ t := by
  intro p
  induction p with
  | nil => intro l; simp [List.isPrefixOf]
  | cons a as ih =>
    intro l
    cases l with
    | nil => simp [List.isPrefixOf]
    | cons b bs =>
      simp only [List.isPrefixOf, Bool.and_eq_true, beq_iff_eq, List.cons_append, ih bs]
      constructor
      · rintro ⟨rfl, t, rfl⟩; exact ⟨t, rfl⟩
      · rintro ⟨t, ht⟩
        injection ht with h1 h2
        exact ⟨h1.symm, t, h2⟩

theorem containsSeq_iff (pat : List Char) :
    ∀ (l : List Char), containsSeq pat l = true ↔ ∃ s t, l = s ++ pat ++ t := by
  intro l
  induction l with
  | nil =>
    simp only [containsSeq, List.isEmpty_iff]
    constructor
    · rintro rfl; exact ⟨[], [], rfl⟩
    · rintro ⟨s, t, h⟩
      rcases List.append_eq_nil.mp h.symm with ⟨h1, h2⟩
      exact (List.append_eq_nil.mp h1).2
  | cons c rest ih =>
    simp only [containsSeq, Bool.or_eq_true, isPrefixOf_iff_append, ih]
    constructor
    · rintro (⟨t, ht⟩ | ⟨s, t, ht⟩)
      · exact ⟨[], t, by simpa using ht⟩
      · exact ⟨c :: s, t, by simp [ht]⟩
    · rintro ⟨s, t, ht⟩
      cases s with
      | nil => exact Or.inl ⟨t, by simpa using ht⟩
      | cons a s2 =>
        injection ht with h1 h2
        exact Or.inr ⟨s2, t, h2⟩

theorem isSuffixOf_iff_append (p l : List Char) :
    p.isSuffixOf l = true ↔ ∃ s, l = s ++ p := by
  unfold List.isSuffixOf
  rw [isPrefixOf_iff_append]
  constructor
  · rintro ⟨t, ht⟩
    refine ⟨t.reverse, ?_⟩
    have h2 := congrArg List.reverse ht
    simpa [List.reverse_append] using h2
  · rintro ⟨s, rfl⟩
    exact ⟨s.reverse, by simp [List.reverse_append]⟩

theorem head?_slash_iff (f : List Char) :
    f.head? = some slashChar ↔ ∃ r, f = slashChar :: r := by
  cases f with
  | nil => simp
  | cons a t => simp

/-! Claim theorems. -/

/-- Claim C7 is false as stated: the validator accepts a bitrate padded
with whitespace even though that string does not match the pattern of one
or more digits followed by an optional k. -/
theorem validate_bitrate_strip_counterexample :
    validate_bitrate (cs " 2500k") = true ∧ matchesBitrateRe (cs " 2500k") = false := by
  decide

/-- Claim C7 (amended): the bitrate validator accepts a string exactly when
the string, after stripping surrounding whitespace, consists of one or more
digits followed by an optional trailing k; in particular the empty string,
non-numeric strings, and strings with trailing garbage are rejected, while
whitespace-padded numeric strings are accepted. -/
theorem validate_bitrate_iff_stripped (bitrate : List Char) :
    validate_bitrate bitrate = true ↔ IsBitrateStr (pyStrip bitrate) := by
  unfold validate_bitrate
  split
  · next h =>
    subst h
    constructor
    · intro hF; cases hF
    · rintro ⟨ds, hne, _, hc | hc⟩
      · have h0 : ([] : List Char) = ds := by simpa [pyStrip] using hc
        exact (hne h0.symm).elim
      · have h0 : ([] : List Char) = ds ++ [kChar] := by simpa [pyStrip] using hc
        rcases List.append_eq_nil.mp h0.symm with ⟨_, h2⟩
        simp at h2
  · exact matchesBitrateRe_iff (pyStrip bitrate)

/-- Claim C8 is false as stated: a relative filename containing a backslash
and ending in an allow-listed extension satisfies none of the three claimed
rejection conditions, yet the validator rejects it. -/
theorem validate_video_filename_backslash_counterexample :
    validate_video_filename (cs "a" ++ [bslash] ++ cs "b.mp4") = false ∧
    containsSeq [dotChar, dotChar] (cs "a" ++ [bslash] ++ cs "b.mp4") = false ∧
    (cs "a" ++ [bslash] ++ cs "b.mp4").head? ≠ some slashChar ∧
    hasAllowedExt (cs "a" ++ [bslash] ++ cs "b.mp4") = true := by
  decide

/-- Claim C8 (amended): the filename validator accepts a candidate exactly
when it contains no parent-directory segment, is not an absolute path,
contains no backslash character, and its lowercased form ends in an
allow-listed video extension. -/
theorem validate_video_filename_iff (f : List Char) :
    validate_video_filename f = true ↔
      (¬ (∃ s t, f = s ++ [dotChar, dotChar] ++ t) ∧
       ¬ (∃ r, f = slashChar :: r) ∧
       bslash ∉ f ∧
       ∃ e ∈ allowedExts, ∃ s, pyLower f = s ++ e) := by
  have hextne : ∀ e ∈ allowedExts, e ≠ [] := by decide
  unfold validate_video_filename
  split
  · next h =>
    simp only [Bool.false_eq_true, false_iff]
    rintro ⟨hdd, habs, hbs, e, he, s, hs⟩
    rcases h with h | h | h | h
    · subst h
      have : ([] : List Char) = s ++ e := by simpa [pyLower] using hs
      rcases List.append_eq_nil.mp this.symm with ⟨_, h2⟩
      exact hextne e he h2
    · exact hdd ((containsSeq_iff _ f).mp h)
    · exact habs ((head?_slash_iff f).mp h)
    · exact hbs h
  · next h =>
    push_neg at h
    obtain ⟨hne, hdd, hhead, hbs⟩ := h
    unfold hasAllowedExt
    simp only [List.any_eq_true]
    constructor
    · rintro ⟨e, he, hsuf⟩
      rcases (isSuffixOf_iff_append e (pyLower f)).mp hsuf with ⟨s, hs⟩
      refine ⟨?_, ?_, hbs, e, he, s, hs⟩
      · intro hc
        exact hdd ((containsSeq_iff _ f).mpr hc)
      · intro hc
        exact hhead ((head?_slash_iff f).mpr hc)
    · rintro ⟨_, _, _, e, he, s, hs⟩
      exact ⟨e, he, (isSuffixOf_iff_append e (pyLower f)).mpr ⟨s, hs⟩⟩

theorem charVal_digitChar {d : Nat} (hd : d < 10) : charVal (digitChar d) = d := by
  interval_cases d <;> rfl

theorem isDigit_digitChar {d : Nat} (hd : d < 10) : (digitChar d).isDigit = true := by
  interval_cases d <;> rfl

theorem digitChar_ne_k {d : Nat} (hd : d < 10) : digitChar d ≠ kChar := by
  interval_cases d <;> decide

theorem not_space_digitChar {d : Nat} (hd : d < 10) : isPySpace (digitChar d) = false := by
  interval_cases d <;> rfl

theorem natToCharsAux_eq : ∀ (fuel n : Nat) (acc : List Char), n ≤ fuel →
    natToCharsAux fuel n acc = ((Nat.digits 10 n).map digitChar).reverse ++ acc := by
  intro fuel
  induction fuel with
  | zero =>
    intro n acc h
    interval_cases n
    simp [natToCharsAux]
  | succ f ih =>
    intro n acc h
    by_cases hn : n = 0
    · subst hn; simp [natToCharsAux]
    · rw [natToCharsAux, if_neg hn]
      rw [ih (n / 10) _ (by omega)]
      rw [Nat.digits_def' (by norm_num : 1 < 10) (Nat.pos_of_ne_zero hn)]
      simp [List.reverse_cons, List.append_assoc]

theorem natToChars_eq {n : Nat} (hn : n ≠ 0) :
    natToChars n = ((Nat.digits 10 n).map digitChar).reverse := by
  unfold natToChars
  rw [if_neg hn, natToCharsAux_eq (n + 1) n [] (by omega)]
  simp

theorem mem_natToChars {n : Nat} {c : Char} (hc : c ∈ natToChars n) :
    ∃ d, d < 10 ∧ c = digitChar d := by
  by_cases hn : n = 0
  · subst hn
    have h0 : natToChars 0 = [digitChar 0] := rfl
    rw [h0, List.mem_singleton] at hc
    exact ⟨0, by omega, hc⟩
  · rw [natToChars_eq hn] at hc
    rw [List.mem_reverse, List.mem_map] at hc
    obtain ⟨d, hd, rfl⟩ := hc
    exact ⟨d, Nat.digits_lt_base (by norm_num) hd, rfl⟩

theorem isDigitsB_natToChars (n : Nat) : isDigitsB (natToChars n) = true := by
  unfold isDigitsB
  rw [List.all_eq_true]
  intro c hc
  obtain ⟨d, hd, rfl⟩ := mem_natToChars hc
  exact isDigit_digitChar hd

theorem natToChars_ne_nil (n : Nat) : natToChars n ≠ [] := by
  by_cases hn : n = 0
  · subst hn; simp [natToChars, natToCharsAux]
  · rw [natToChars_eq hn]
    simp [Nat.digits_ne_nil_iff_ne_zero.mpr hn]

theorem dropWhile_eq_self_all {p : Char → Bool} {l : List Char}
    (h : ∀ c ∈ l, p c = false) : l.dropWhile p = l := by
  cases l with
  | nil => rfl
  | cons c rest => simp [List.dropWhile_cons, h c (by simp)]

theorem pyStrip_eq_self {l : List Char} (h : ∀ c ∈ l, isPySpace c = false) :
    pyStrip l = l := by
  unfold pyStrip
  rw [dropWhile_eq_self_all h]
  rw [dropWhile_eq_self_all (fun c hc => h c (List.mem_reverse.mp hc))]
  exact List.reverse_reverse l

theorem foldr_digits_val : ∀ (ds : List Nat), (∀ d ∈ ds, d < 10) →
    List.foldr (fun d a => 10 * a + d) 0 ds = Nat.ofDigits 10 ds := by
  intro ds h
  induction ds with
  | nil => simp [Nat.ofDigits]
  | cons d rest ih =>
    rw [List.foldr_cons, ih (fun x hx => h x (by simp [hx])), Nat.ofDigits_cons]
    omega

theorem toNatChars_natToChars (n : Nat) : toNatChars (natToChars n) = n := by
  by_cases hn : n = 0
  · subst hn; rfl
  · rw [natToChars_eq hn]
    unfold toNatChars
    rw [List.foldl_reverse, List.foldr_map]
    have hlt : ∀ d ∈ Nat.digits 10 n, d < 10 :=
      fun d hd => Nat.digits_lt_base (by norm_num) hd
    have key : ∀ (ds : List Nat), (∀ d ∈ ds, d < 10) →
        List.foldr (fun d a => 10 * a + charVal (digitChar d)) 0 ds =
        List.foldr (fun d a => 10 * a + d) 0 ds := by
      intro ds hds
      induction ds with
      | nil => rfl
      | cons d rest ih =>
        simp only [List.foldr_cons]
        rw [charVal_digitChar (hds d (by simp)), ih (fun x hx => hds x (by simp [hx]))]
    rw [key _ hlt, foldr_digits_val _ hlt, Nat.ofDigits_digits]

theorem mem_of_getLast?_eq : ∀ {l : List Char} {c : Char}, l.getLast? = some c → c ∈ l := by
  intro l
  induction l with
  | nil => intro c h; cases h
  | cons a rest ih =>
    intro c h
    cases rest with
    | nil =>
      simp only [List.getLast?_singleton, Option.some.injEq] at h
      simp [h]
    | cons b bs =>
      rw [List.getLast?_cons_cons] at h
      exact List.mem_cons_of_mem a (ih h)

theorem noSpace_natToChars {n : Nat} : ∀ c ∈ natToChars n, isPySpace c = false := by
  intro c hc
  obtain ⟨d, hd, rfl⟩ := mem_natToChars hc
  exact not_space_digitChar hd

theorem parse_bitrate_k_digits (n : Nat) : parse_bitrate_k (natToChars n) = some n := by
  unfold parse_bitrate_k
  rw [pyStrip_eq_self noSpace_natToChars]
  have hlast : ¬ (natToChars n).getLast? = some kChar := by
    intro h
    obtain ⟨d, hd, hk⟩ := mem_natToChars (mem_of_getLast?_eq h)
    exact digitChar_ne_k hd hk.symm
  rw [if_neg (by intro h; exact hlast h.1)]
  rw [if_pos ⟨isDigitsB_natToChars n, natToChars_ne_nil n⟩]
  rw [toNatChars_natToChars]

theorem parse_bitrate_k_digits_k (n : Nat) :
    parse_bitrate_k (natToChars n ++ [kChar]) = some n := by
  unfold parse_bitrate_k
  have hnos : ∀ c ∈ natToChars n ++ [kChar], isPySpace c = false := by
    intro c hc
    rcases List.mem_append.mp hc with h | h
    · exact noSpace_natToChars c h
    · simp only [List.mem_singleton] at h
      subst h
      decide
  rw [pyStrip_eq_self hnos]
  rw [if_pos ⟨List.getLast?_concat _, by
        rw [List.dropLast_concat]; exact isDigitsB_natToChars n, by
        rw [List.dropLast_concat]; exact natToChars_ne_nil n⟩]
  rw [List.dropLast_concat, toNatChars_natToChars]

/-- Claim C9 is false as stated: for the bare-digit bitrate 2500 the code
computes a buffer of 5000k, not 5000 in the bitrate's own (unsuffixed)
unit. -/
theorem bufsize_bare_digit_counterexample :
    buildBuf (cs "2500") = cs "5000k" ∧ cs "5000k" ≠ cs "5000" := by
  decide

/-- Claim C9 (amended): for every valid bitrate with non-zero numeric value
n, whether written with a k suffix or as bare digits, the computed -bufsize
argument is the decimal rendering of twice n followed by the unit k; a
bare-digit bitrate therefore has its unit promoted to k rather than kept. -/
theorem bufsize_doubles_with_k_unit (n : Nat) (hn : 0 < n) :
    buildBuf (natToChars n ++ [kChar]) = natToChars (n * 2) ++ [kChar] ∧
    buildBuf (natToChars n) = natToChars (n * 2) ++ [kChar] := by
  constructor
  · simp only [buildBuf, parse_bitrate_k_digits_k]
    rw [if_pos (by omega : n ≠ 0)]
  · simp only [buildBuf, parse_bitrate_k_digits]
    rw [if_pos (by omega : n ≠ 0)]

/-- Witness for the amended C9 at the concrete bitrate value 2500. -/
theorem bufsize_doubles_with_k_unit_witness :
    buildBuf (natToChars 2500 ++ [kChar]) = natToChars (2500 * 2) ++ [kChar] ∧
    buildBuf (natToChars 2500) = natToChars (2500 * 2) ++ [kChar] :=
  bufsize_doubles_with_k_unit 2500 (by decide)

theorem pyUnescapeQuote_short : ∀ (l : List Char), l.length ≤ 3 → pyUnescapeQuote l = l := by
  intro l h
  match l with
  | [] => rfl
  | [a] => rfl
  | [a, b] => rfl
  | [a, b, c] => rfl
  | a :: b :: c :: d :: rest =>
    exfalso
    simp only [List.length_cons] at h
    omega

theorem pyUnescapeQuote_cons_ne {a : Char} (ha : a ≠ squote) :
    ∀ (t : List Char), pyUnescapeQuote (a :: t) = a :: pyUnescapeQuote t := by
  intro t
  match t with
  | [] => rfl
  | [b] => rfl
  | [b, c] => rfl
  | b :: c :: d :: rest =>
    have hstep : pyUnescapeQuote (a :: b :: c :: d :: rest) =
        if a = squote ∧ b = bslash ∧ c = squote ∧ d = squote then
          squote :: pyUnescapeQuote rest
        else a :: pyUnescapeQuote (b :: c :: d :: rest) := rfl
    rw [hstep, if_neg (fun hcon => ha hcon.1)]

theorem pyUnescapeQuote_esc (t : List Char) :
    pyUnescapeQuote (squote :: bslash :: squote :: squote :: t) = squote :: pyUnescapeQuote t := by
  have hstep : pyUnescapeQuote (squote :: bslash :: squote :: squote :: t) =
      if squote = squote ∧ bslash = bslash ∧ squote = squote ∧ squote = squote then
        squote :: pyUnescapeQuote t
      else squote :: pyUnescapeQuote (bslash :: squote :: squote :: t) := rfl
  rw [hstep, if_pos ⟨rfl, rfl, rfl, rfl⟩]

theorem unescape_escQuotes : ∀ (s : List Char), pyUnescapeQuote (escQuotes s) = s := by
  intro s
  induction s with
  | nil => rfl
  | cons c rest ih =>
    by_cases hc : c = squote
    · subst hc
      have he : escQuotes (squote :: rest) =
          squote :: bslash :: squote :: squote :: escQuotes rest := by
        simp [escQuotes]
      rw [he, pyUnescapeQuote_esc, ih]
    · have he : escQuotes (c :: rest) = c :: escQuotes rest := by
        simp [escQuotes, hc]
      rw [he, pyUnescapeQuote_cons_ne hc, ih]

/-- Claim C10: for every file path without a newline, the debug-playlist
reader (strip the fixed framing of the written line, then un-escape single
quotes) recovers exactly the normalised form of the path: un-escape is a
left inverse of escape-then-format on the normalised path. -/
theorem manifest_roundtrip (p : List Char) (hnl : nlChar ∉ p) :
    parseManifestLine (writeManifestLine p) = some (normalizedPath p) := by
  unfold parseManifestLine writeManifestLine
  rw [if_pos (show filePrefixChars.isPrefixOf
        (filePrefixChars ++ escape_ffmpeg_path p ++ [squote, nlChar]) = true from
      (isPrefixOf_iff_append _ _).mpr
        ⟨escape_ffmpeg_path p ++ [squote, nlChar], by simp⟩)]
  congr 1
  have h6 : filePrefixChars.length = 6 := rfl
  have hdrop : (filePrefixChars ++ escape_ffmpeg_path p ++ [squote, nlChar]).drop 6 =
      escape_ffmpeg_path p ++ [squote, nlChar] := by
    rw [List.append_assoc, ← h6, List.drop_left]
  rw [hdrop]
  have hsplit : escape_ffmpeg_path p ++ [squote, nlChar] =
      (escape_ffmpeg_path p ++ [squote]) ++ [nlChar] := by simp
  rw [hsplit, List.dropLast_concat, List.dropLast_concat]
  unfold escape_ffmpeg_path
  exact unescape_escQuotes (normalizedPath p)

/-- Witness for C10 at a concrete absolute path containing a single-quote
character. -/
theorem manifest_roundtrip_witness :
    nlChar ∉ ([slashChar] ++ cs "a" ++ [squote] ++ cs "b.mp4") ∧
    parseManifestLine (writeManifestLine ([slashChar] ++ cs "a" ++ [squote] ++ cs "b.mp4")) =
      some (normalizedPath ([slashChar] ++ cs "a" ++ [squote] ++ cs "b.mp4")) :=
  ⟨by decide, manifest_roundtrip ([slashChar] ++ cs "a" ++ [squote] ++ cs "b.mp4") (by decide)⟩

/-- Claim C5 is false as stated: with three files, shuffle enabled and all
checks passing, the manifest holds exactly three entries — the single
permutation is written once, never concatenated repeatCount times, so the
nine entries the claim predicts for repeat three do not exist. -/
theorem shuffle_no_repeat_counterexample :
    (create_playlist allTrueFS true videos3 shuffled3).lines.length = 3 ∧
    (create_playlist allTrueFS true videos3 shuffled3).lines.length ≠ 3 * 3 := by
  decide

/-- Claim C5 (amended): the playlist builder performs exactly one
permutation of the file set and writes it exactly once: with shuffle on and
every file passing the write-time checks the manifest lines are the
permutation in order, and their number equals the number of files (there is
no repeat parameter; repetition comes from supervisor restarts). -/
theorem shuffle_single_pass (fs : FS) (videos shuffled : List (List Char))
    (hne : videos ≠ []) (hperm : shuffled.Perm videos)
    (hok : ∀ v ∈ videos, fs.pathExists (joinPath VIDEO_FOLDER v) = true ∧
        fs.readable (joinPath VIDEO_FOLDER v) = true) :
    (create_playlist fs true videos shuffled).lines =
      shuffled.map (fun v => writeManifestLine (joinPath VIDEO_FOLDER v)) ∧
    (create_playlist fs true videos shuffled).lines.length = videos.length ∧
    (create_playlist fs true videos shuffled).result = PlaylistRes.ok := by
  have hpv : playlistVideos true videos shuffled = shuffled := rfl
  have hvalid : validVideos fs (playlistVideos true videos shuffled) = shuffled := by
    rw [hpv]
    unfold validVideos
    apply List.filter_eq_self.mpr
    intro v hv
    obtain ⟨h1, h2⟩ := hok v (hperm.mem_iff.mp hv)
    simp [h1, h2]
  have hsne : shuffled ≠ [] := by
    intro h
    apply hne
    have := hperm.length_eq
    rw [h] at this
    exact List.length_eq_zero.mp this.symm
  unfold create_playlist
  rw [if_neg hne, if_neg (by rw [hvalid]; exact hsne)]
  rw [hvalid]
  exact ⟨rfl, by rw [List.length_map, hperm.length_eq], rfl⟩

/-- Witness for the amended C5 at a concrete three-element file set. -/
theorem shuffle_single_pass_witness :
    (create_playlist allTrueFS true videos3 shuffled3).lines =
      shuffled3.map (fun v => writeManifestLine (joinPath VIDEO_FOLDER v)) ∧
    (create_playlist allTrueFS true videos3 shuffled3).lines.length = videos3.length ∧
    (create_playlist allTrueFS true videos3 shuffled3).result = PlaylistRes.ok :=
  shuffle_single_pass allTrueFS videos3 shuffled3 (by decide) (by decide) (by decide)

/-- Claim C6: every manifest line written comes from a path that passed the
existence and readability checks (failing paths are skipped, not fatal);
when nothing survives and the scan was non-empty the builder fails with the
empty-playlist error, does not register the manifest as current, and does
not keep the file; when something survives the build succeeds even if some
paths were skipped. -/
theorem playlist_skip_and_empty_error (fs : FS) (sh : Bool)
    (videos shuffled : List (List Char)) :
    (∀ line ∈ (create_playlist fs sh videos shuffled).lines,
        ∃ v, v ∈ playlistVideos sh videos shuffled ∧
          fs.pathExists (joinPath VIDEO_FOLDER v) = true ∧
          fs.readable (joinPath VIDEO_FOLDER v) = true ∧
          line = writeManifestLine (joinPath VIDEO_FOLDER v)) ∧
    (videos ≠ [] → validVideos fs (playlistVideos sh videos shuffled) = [] →
        (create_playlist fs sh videos shuffled).result =
          PlaylistRes.err PlaylistErr.emptyPlaylist ∧
        (create_playlist fs sh videos shuffled).currentSet = false ∧
        (create_playlist fs sh videos shuffled).fileKept = false) ∧
    (videos ≠ [] → validVideos fs (playlistVideos sh videos shuffled) ≠ [] →
        (create_playlist fs sh videos shuffled).result = PlaylistRes.ok) := by
  refine ⟨?_, ?_, ?_⟩
  · intro line hline
    by_cases hv : videos = []
    · rw [hv] at hline
      simp [create_playlist] at hline
    · have hline' : line ∈ (validVideos fs (playlistVideos sh videos shuffled)).map
          (fun v => writeManifestLine (joinPath VIDEO_FOLDER v)) := by
        unfold create_playlist at hline
        rw [if_neg hv] at hline
        split at hline <;> exact hline
      rw [List.mem_map] at hline'
      obtain ⟨v, hvmem, rfl⟩ := hline'
      unfold validVideos at hvmem
      rw [List.mem_filter] at hvmem
      obtain ⟨hpv, hcheck⟩ := hvmem
      rw [Bool.and_eq_true] at hcheck
      exact ⟨v, hpv, hcheck.1, hcheck.2, rfl⟩
  · intro hv hval
    unfold create_playlist
    rw [if_neg hv, if_pos hval]
    exact ⟨rfl, rfl, rfl⟩
  · intro hv hval
    unfold create_playlist
    rw [if_neg hv, if_neg hval]

/-- Witness for C6: with a file system on which nothing exists, a non-empty
scan yields zero surviving entries and the empty-playlist failure with the
manifest neither registered nor kept. -/
theorem playlist_skip_and_empty_error_witness :
    videos3 ≠ [] ∧
    validVideos noneFS (playlistVideos false videos3 shuffled3) = [] ∧
    ((create_playlist noneFS false videos3 shuffled3).result =
        PlaylistRes.err PlaylistErr.emptyPlaylist ∧
     (create_playlist noneFS false videos3 shuffled3).currentSet = false ∧
     (create_playlist noneFS false videos3 shuffled3).fileKept = false) :=
  ⟨by decide, by decide,
   (playlist_skip_and_empty_error noneFS false videos3 shuffled3).2.1 (by decide) (by decide)⟩

/-- Claim C3 is false as stated: a start request that fails validation (no
enabled destination, and an invalid bitrate in the form) is answered with a
synchronous error and spawns nothing, yet the stored defaults have been
overwritten with the submitted form and the configuration has been
persisted before validation ran. -/
theorem failed_start_mutates_defaults_counterexample :
    (toggleStart DEFAULTS envEmpty reqBadBitrate).response =
      ToggleResp.err ToggleErr.noDestination ∧
    (toggleStart DEFAULTS envEmpty reqBadBitrate).spawned = false ∧
    (toggleStart DEFAULTS envEmpty reqBadBitrate).defaults ≠ DEFAULTS ∧
    (toggleStart DEFAULTS envEmpty reqBadBitrate).saved ≠ none := by
  decide

theorem toggleStart_fields (defaults : Form) (env : ToggleEnv) (req : Req) :
    (toggleStart defaults env req).defaults = mergeForm defaults req ∧
    (toggleStart defaults env req).saved = some (mergeForm defaults req) ∧
    ((toggleStart defaults env req).spawned = true →
      (toggleStart defaults env req).response = ToggleResp.ok) := by
  simp only [toggleStart]
  repeat' split
  all_goals simp

/-- Claim C3 (amended): a start request that fails validation is answered
with a synchronous error and spawns no supervisor thread, but observable
state does change: the handler overwrites the stored defaults with the
merged form and persists that configuration before running validation, so
the failed request leaves them changed. -/
theorem failed_start_no_spawn_defaults_saved (defaults : Form) (env : ToggleEnv) (req : Req)
    (e : ToggleErr) (he : (toggleStart defaults env req).response = ToggleResp.err e) :
    (toggleStart defaults env req).spawned = false ∧
    (toggleStart defaults env req).defaults = mergeForm defaults req ∧
    (toggleStart defaults env req).saved = some (mergeForm defaults req) := by
  obtain ⟨h1, h2, h3⟩ := toggleStart_fields defaults env req
  refine ⟨?_, h1, h2⟩
  rcases Bool.eq_false_or_eq_true (toggleStart defaults env req).spawned with hb | hb
  · rw [h3 hb] at he
    cases he
  · exact hb

/-- Witness for the amended C3 at the concrete failing request. -/
theorem failed_start_no_spawn_defaults_saved_witness :
    (toggleStart DEFAULTS envEmpty reqBadBitrate).response =
      ToggleResp.err ToggleErr.noDestination ∧
    ((toggleStart DEFAULTS envEmpty reqBadBitrate).spawned = false ∧
     (toggleStart DEFAULTS envEmpty reqBadBitrate).defaults = mergeForm DEFAULTS reqBadBitrate ∧
     (toggleStart DEFAULTS envEmpty reqBadBitrate).saved =
       some (mergeForm DEFAULTS reqBadBitrate)) :=
  ⟨by decide,
   failed_start_no_spawn_defaults_saved DEFAULTS envEmpty reqBadBitrate
     ToggleErr.noDestination (by decide)⟩

theorem stateInv_applyOp (s : SStreamState) (op : SOp) (h : stateInv s) :
    stateInv (applyOp s op) := by
  cases op with
  | setRunning b now =>
    cases b <;> simp [applyOp, set_running, stateInv]
  | incRestarts now => simpa [applyOp, increment_restarts, stateInv] using h
  | setError e => simpa [applyOp, set_error, stateInv] using h
  | reset => simp [applyOp, state_reset, stateInv]

theorem stateInv_applyOps (ops : List SOp) : stateInv (applyOps initStreamState ops) := by
  suffices h : ∀ (s : SStreamState), stateInv s → stateInv (applyOps s ops) from
    h initStreamState (by simp [stateInv, initStreamState])
  induction ops with
  | nil => intro s hs; exact hs
  | cons op rest ih =>
    intro s hs
    have hstep := stateInv_applyOp s op hs
    simpa [applyOps, List.foldl_cons] using ih (applyOp s op) hstep

/-- Claim C4: under the mutex-ordered interleaving of the transition
operations, a status snapshot taken at any point never shows the stream
running with a missing start timestamp: running implies start_time is set,
and this invariant is preserved by every transition operation. -/
theorem snapshot_running_implies_start_time (ops : List SOp) (now : Nat)
    (h : (get_status (applyOps initStreamState ops) now).running = true) :
    (applyOps initStreamState ops).start_time ≠ none := by
  have hr : (applyOps initStreamState ops).running = true := h
  exact stateInv_applyOps ops hr

/-- Witness for C4 after a concrete start transition. -/
theorem snapshot_running_implies_start_time_witness :
    (get_status (applyOps initStreamState [SOp.setRunning true 5]) 9).running = true ∧
    (applyOps initStreamState [SOp.setRunning true 5]).start_time ≠ none :=
  ⟨by decide, snapshot_running_implies_start_time [SOp.setRunning true 5] 9 (by decide)⟩

theorem backoffSeq_zero : backoffSeq 0 = 2 := by
  unfold backoffSeq
  norm_num

theorem backoffSeq_succ (k : Nat) : min (backoffSeq k * 3 / 2) 60 = backoffSeq (k + 1) := by
  unfold backoffSeq
  rcases le_total (2 * (3 / 2 : ℚ) ^ k) 60 with h | h
  · rw [min_eq_left h]
    congr 1
    rw [pow_succ]
    ring
  · rw [min_eq_right h]
    rw [min_eq_right (by norm_num : (60 : ℚ) ≤ 60 * 3 / 2)]
    have h2 : (60 : ℚ) ≤ 2 * (3 / 2 : ℚ) ^ (k + 1) := by
      have hp : (0 : ℚ) < (3 / 2 : ℚ) ^ k := by positivity
      calc (60 : ℚ) ≤ 2 * (3 / 2 : ℚ) ^ k := h
        _ ≤ 2 * (3 / 2 : ℚ) ^ (k + 1) := by
            rw [pow_succ]
            nlinarith
    rw [min_eq_right h2]

theorem supLoop_clean (mr : Nat) :
    ∀ (events : List SupEvent) (r ls : Nat) (ds : List ℚ) (err : Option (List Char)),
      (∀ e ∈ events, e.stopObserved = false) →
      r + events.length < mr →
      supLoop mr events r (backoffSeq r) ds ls err =
        ⟨ls + events.length, r + events.length,
         ds ++ (List.range events.length).map (fun k => backoffSeq (r + k)),
         backoffSeq (r + events.length), err, false, true⟩ := by
  intro events
  induction events with
  | nil =>
    intro r ls ds err _ hlt
    simp only [List.length_nil, Nat.add_zero] at hlt ⊢
    rw [supLoop, if_pos hlt]
    simp
  | cons e rest ih =>
    intro r ls ds err hstop hlt
    simp only [List.length_cons] at hlt
    rw [supLoop, if_pos (by omega : r < mr)]
    rw [if_neg (by simp [hstop e (List.mem_cons_self e rest)])]
    rw [if_neg (by omega : ¬ mr ≤ r + 1)]
    rw [backoffSeq_succ]
    rw [ih (r + 1) (ls + 1) (ds ++ [backoffSeq r]) err
        (fun x hx => hstop x (List.mem_cons_of_mem e hx)) (by omega)]
    simp only [List.length_cons, SupResult.mk.injEq]
    refine ⟨by omega, by omega, ?_, by congr 1; omega, trivial, trivial, trivial⟩
    rw [List.range_succ_eq_map, List.map_cons, List.map_map, List.append_assoc,
      List.singleton_append, Nat.add_zero]
    congr 1
    congr 1
    apply List.map_congr_left
    intro k _
    show backoffSeq (r + 1 + k) = backoffSeq (r + (k + 1))
    congr 1
    omega

theorem supLoop_maxed (mr : Nat) :
    ∀ (events : List SupEvent) (r ls : Nat) (b : ℚ) (ds : List ℚ) (err : Option (List Char)),
      (∀ e ∈ events, e.stopObserved = false) →
      r < mr → mr ≤ r + events.length →
      (supLoop mr events r b ds ls err).launches = ls + (mr - r) ∧
      (supLoop mr events r b ds ls err).restarts = mr ∧
      (supLoop mr events r b ds ls err).running = false ∧
      (supLoop mr events r b ds ls err).lastError = some (maxErrMsg mr) ∧
      (supLoop mr events r b ds ls err).exhausted = false := by
  intro events
  induction events with
  | nil =>
    intro r ls b ds err _ hr hle
    simp only [List.length_nil] at hle
    omega
  | cons e rest ih =>
    intro r ls b ds err hstop hr hle
    simp only [List.length_cons] at hle
    rw [supLoop, if_pos hr]
    rw [if_neg (by simp [hstop e (List.mem_cons_self e rest)])]
    by_cases hmax : mr ≤ r + 1
    · rw [if_pos hmax]
      refine ⟨by simp; omega, by simp; omega, rfl, rfl, rfl⟩
    · rw [if_neg hmax]
      have hrec := ih (r + 1) (ls + 1) (min (b * 3 / 2) 60) (ds ++ [b]) err
        (fun x hx => hstop x (List.mem_cons_of_mem e hx)) (by omega) (by omega)
      refine ⟨?_, hrec.2.1, hrec.2.2.1, hrec.2.2.2.1, hrec.2.2.2.2⟩
      rw [hrec.1]
      omega

/-- Claim C1 is false as stated: a run in which the process twice exits
cleanly (code 0, no stop request) sleeps the full backoff delay before each
relaunch — 2 seconds and then 3 seconds — so the restart is not immediate
(the delay is not 0) and the backoff is grown to 3, not reset to its floor
of 2. -/
theorem clean_exit_backoff_counterexample :
    (supRun 10 cleanEvents2).delays = [2, 3] ∧
    ((2 : ℚ) ≠ 0 ∧ (3 : ℚ) ≠ 0) ∧ (3 : ℚ) ≠ 2 := by
  refine ⟨?_, ⟨by norm_num, by norm_num⟩, by norm_num⟩
  norm_num [supRun, supLoop, cleanEvents2, min_def]

/-- Claim C1 (amended): a clean exit (code 0) while looping is handled
exactly like any abnormal exit: each clean exit increments the restart
counter by one, the supervisor sleeps the current backoff delay before the
relaunch — the delays follow 2 times three-halves to the k capped at 60 —
and the backoff keeps growing instead of being reset to its floor, so the
restart is never immediate. -/
theorem clean_exit_uniform_backoff (mr : Nat) (events : List SupEvent)
    (hclean : ∀ e ∈ events, e.rc = 0 ∧ e.stopObserved = false)
    (hlen : events.length < mr) :
    (supRun mr events).delays = (List.range events.length).map backoffSeq ∧
    (supRun mr events).restarts = events.length ∧
    (supRun mr events).backoff = backoffSeq events.length := by
  have h := supLoop_clean mr events 0 0 [] none (fun e he => (hclean e he).2) (by omega)
  rw [supRun, ← backoffSeq_zero, h]
  refine ⟨?_, by simp, by simp⟩
  simp

/-- Witness for the amended C1 on a script of two clean exits. -/
theorem clean_exit_uniform_backoff_witness :
    (supRun 10 cleanEvents2).delays = (List.range cleanEvents2.length).map backoffSeq ∧
    (supRun 10 cleanEvents2).restarts = cleanEvents2.length ∧
    (supRun 10 cleanEvents2).backoff = backoffSeq cleanEvents2.length :=
  clean_exit_uniform_backoff 10 cleanEvents2 (by decide) (by decide)

/-- Claim C2: once the restart counter reaches MAX_RESTARTS consecutive
exits, the supervisor launches the process exactly MAX_RESTARTS times and
then stops retrying (the loop terminates with events left unconsumed), the
running flag is false, and last_error is the non-empty max-restarts
message. -/
theorem max_restarts_terminates (mr : Nat) (events : List SupEvent)
    (hmr : 1 ≤ mr) (hlen : mr ≤ events.length)
    (hstop : ∀ e ∈ events, e.stopObserved = false) :
    (supRun mr events).launches = mr ∧
    (supRun mr events).restarts = mr ∧
    (supRun mr events).running = false ∧
    (supRun mr events).lastError = some (maxErrMsg mr) ∧
    maxErrMsg mr ≠ [] := by
  have h := supLoop_maxed mr events 0 0 2 [] none hstop (by omega) (by omega)
  have hne : maxErrMsg mr ≠ [] := by
    unfold maxErrMsg
    intro hcon
    have h14 : (cs "Max restarts (").length = 14 := rfl
    rw [List.append_assoc] at hcon
    rcases List.append_eq_nil.mp hcon with ⟨h1, _⟩
    have h0 : (14 : Nat) = 0 := by rw [← h14, h1]; rfl
    exact absurd h0 (by norm_num)
  simp only [supRun]
  refine ⟨?_, h.2.1, h.2.2.1, h.2.2.2.1, hne⟩
  rw [h.1]
  omega

/-- Witness for C2 with budget two and two abnormal exits. -/
theorem max_restarts_terminates_witness :
    (supRun 2 [⟨1, false⟩, ⟨1, false⟩]).launches = 2 ∧
    (supRun 2 [⟨1, false⟩, ⟨1, false⟩]).restarts = 2 ∧
    (supRun 2 [⟨1, false⟩, ⟨1, false⟩]).running = false ∧
    (supRun 2 [⟨1, false⟩, ⟨1, false⟩]).lastError = some (maxErrMsg 2) ∧
    maxErrMsg 2 ≠ [] :=
  max_restarts_terminates 2 [⟨1, false⟩, ⟨1, false⟩] (by decide) (by decide) (by decide)
